import Mathlib

/-!
Shallow embedding of the Trivial Todo core (`todo.py`): the reminder record,
the partial-match equality `Reminder.__eq__`, serial allocation
(`Reminder.next_serial`), the category-partitioned persistent store
(`_append_reminder`, `_remove_reminder`, `_iter_reminders`), the engine
operations (`reminder_exists`, `add_reminder`, `delete_reminder`,
`search_in_content`) and the date-expression parser (`parse_date`,
`_parse_absolute_date`, `_parse_relative_date`).

Calendar dates (`datetime.date`) are embedded as year/month/day triples of
naturals; `datetime.date(y, m, d)` validity (year 1..9999, month 1..12,
day within the month, Gregorian leap rule) is `mkdate?`, and
`timedelta(days := n)` addition is `addDays`.  Python exceptions are
explicit result values: `DateResult.invalid` is `InvalidDateException`,
`DateResult.crash` an uncaught exception (e.g. `int()` raising
`ValueError`); likewise `EngineError` for the engine.  The shelve is one
mapping whose reserved key `"serial"` holds the counter and whose other
keys are category partitions; the counter is modelled as separate state
(`next_serial`) and the partitions as an association list (`Store`).
-/

namespace Todo

/-- A calendar date, as `datetime.date`: year/month/day. -/
structure Date where
  year : Nat
  month : Nat
  day : Nat
deriving DecidableEq, Repr

/-- Gregorian leap-year rule used by `datetime.date`. -/
def isLeapYear (y : Nat) : Bool :=
  (y % 4 == 0 && y % 100 != 0) || y % 400 == 0

/-- Length of month `m` of year `y` (`datetime`'s `_days_in_month`). -/
def daysInMonth (y m : Nat) : Nat :=
  match m with
  | 1 => 31
  | 2 => if isLeapYear y then 29 else 28
  | 3 => 31
  | 4 => 30
  | 5 => 31
  | 6 => 30
  | 7 => 31
  | 8 => 31
  | 9 => 30
  | 10 => 31
  | 11 => 30
  | 12 => 31
  | _ => 0

/-- `datetime.date(y, m, d)`: `some` date when in range, `none` for the
`ValueError` on an out-of-range component. -/
def mkdate? (y m d : Int) : Option Date :=
  if 1 ≤ y ∧ y ≤ 9999 ∧ 1 ≤ m ∧ m ≤ 12 ∧ 1 ≤ d ∧
      d ≤ (daysInMonth y.toNat m.toNat : Int) then
    some ⟨y.toNat, m.toNat, d.toNat⟩
  else
    none

/-- The day after `d` (Gregorian calendar successor). -/
def nextDay (d : Date) : Date :=
  if d.day < daysInMonth d.year d.month then ⟨d.year, d.month, d.day + 1⟩
  else if d.month < 12 then ⟨d.year, d.month + 1, 1⟩
  else ⟨d.year + 1, 1, 1⟩

/-- `date + timedelta(days := n)`. -/
def addDays (d : Date) : Nat → Date
  | 0 => d
  | n + 1 => addDays (nextDay d) n

/-- The reminder record.  After `Reminder.__init__` the creation date is
always set, so `date` is a plain `Date`; `content`, `category` and
`date_due` are the attributes `__eq__` treats as optional. -/
structure Reminder where
  serial : Nat
  date : Date
  content : Option String
  category : Option String
  date_due : Option Date
deriving DecidableEq, Repr

/-- One compared field of `Reminder.__eq__`: skipped (`true`) when either
side is `None`, otherwise the values must compare equal. -/
def fieldMatch {α : Type} [DecidableEq α] : Option α → Option α → Bool
  | none, _ => true
  | _, none => true
  | some a, some b => a = b

/-- `Reminder.__eq__`: compares `content`, `category`, `date_due` in turn,
skipping a field when either side is `None`; `serial` and `date` are
never read. -/
def reminderEq (a b : Reminder) : Bool :=
  fieldMatch a.content b.content &&
  fieldMatch a.category b.category &&
  fieldMatch a.date_due b.date_due

/-- `Reminder.next_serial`: reads the stored counter (`0` when the key is
absent), increments, writes back, returns the new value.  The pair is
(returned serial, new stored counter). -/
def next_serial (stored : Option Nat) : Nat × Nat :=
  (stored.getD 0 + 1, stored.getD 0 + 1)

/-- The serials handed out by `n` successive constructions, threading the
stored counter through `next_serial`. -/
def issueSerials : Option Nat → Nat → List Nat
  | _, 0 => []
  | stored, n + 1 =>
    (next_serial stored).1 :: issueSerials (some (next_serial stored).2) n

/-- `Reminder.__init__`: the serial comes from `next_serial`; `date`
defaults to today (a `datetime.date` is never falsy, so only `None`
triggers the default); `category` defaults to `"general"` on any falsy
value (`None` or the empty string); `content` and `date_due` are stored
as given. -/
def mkReminder (today : Date) (serial : Nat) (content : Option String)
    (category : Option String) (date_due : Option Date)
    (date : Option Date) : Reminder :=
  { serial := serial
    date := match date with
      | some d => d
      | none => today
    content := content
    category := some (match category with
      | some c => if c = "" then "general" else c
      | none => "general")
    date_due := date_due }

/-! ### The category-partitioned store

The shelve maps category names to lists of reminders (the reserved
`"serial"` key, holding the counter, is modelled as the separate
`next_serial` state above and is skipped by `_iter_reminders`).  Shelve
keys must encode as strings: an operation handed a `None` category would
raise, which the `Option` results below record as `none`. -/

/-- The category partitions of the shelve: an association list from
category name to its ordered reminder list. -/
abbrev Store := List (String × List Reminder)

/-- `reminders.get(c, [])`. -/
def storeGet : Store → String → List Reminder
  | [], _ => []
  | p :: rest, c => if p.1 = c then p.2 else storeGet rest c

/-- `reminders[c] = l`: replace the binding when the key is present,
otherwise add it. -/
def storeSet : Store → String → List Reminder → Store
  | [], c, l => [(c, l)]
  | p :: rest, c, l => if p.1 = c then (c, l) :: rest else p :: storeSet rest c l

/-- `del reminders[c]`. -/
def storeDel : Store → String → Store
  | [], _ => []
  | p :: rest, c => if p.1 = c then rest else p :: storeDel rest c

/-- `_iter_reminders`: every category's sequence, chained in key order. -/
def iterAll (s : Store) : List Reminder :=
  (s.map Prod.snd).flatten

/-- `_append_reminder`: fetch the target's category partition (empty when
absent), append, write back.  `none` when the category is `None` (shelve
keys must be strings). -/
def append_reminder (s : Store) (r : Reminder) : Option Store :=
  match r.category with
  | some c => some (storeSet s c (storeGet s c ++ [r]))
  | none => none

/-- `list.remove` as used by `_remove_reminder`: drop the first element
that compares equal (by `Reminder.__eq__`) to `t`; `none` is the
`ValueError` when no element matches. -/
def removeFirstMatch (t : Reminder) : List Reminder → Option (List Reminder)
  | [] => none
  | x :: rest =>
    if reminderEq x t then some rest
    else (removeFirstMatch t rest).map (x :: ·)

/-- `_remove_reminder`: fetch the target's category partition, remove the
first matching entry, delete the key when the remainder is empty, else
write the remainder back.  `none` records an uncaught exception (`None`
category key, or `list.remove` finding no match). -/
def remove_reminder (s : Store) (r : Reminder) : Option Store :=
  match r.category with
  | some c =>
    match removeFirstMatch r (storeGet s c) with
    | some l => some (if l.isEmpty then storeDel s c else storeSet s c l)
    | none => none
  | none => none

/-- `reminder_exists`: scan every stored reminder for a partial match. -/
def reminder_exists (s : Store) (r : Reminder) : Bool :=
  (iterAll s).any (fun item => reminderEq item r)

/-- Engine failure modes: the two raised exceptions, plus `crash` for an
uncaught exception escaping the operation. -/
inductive EngineError
  | alreadyExists
  | doesNotExist
  | crash
deriving DecidableEq, Repr

/-- `add_reminder`: raise `ReminderExistsException` when a stored
reminder matches, otherwise append. -/
def add_reminder (s : Store) (r : Reminder) : Except EngineError Store :=
  if reminder_exists s r then .error .alreadyExists
  else
    match append_reminder s r with
    | some s2 => .ok s2
    | none => .error .crash

/-- `delete_reminder`: raise `ReminderDoesNotExistException` when no
stored reminder matches, otherwise remove. -/
def delete_reminder (s : Store) (r : Reminder) : Except EngineError Store :=
  if !reminder_exists s r then .error .doesNotExist
  else
    match remove_reminder s r with
    | some s2 => .ok s2
    | none => .error .crash

/-! ### Content search -/

/-- `str.lower`, character by character. -/
def lowerStr (s : String) : String :=
  ⟨s.data.map Char.toLower⟩

/-- Whether `t` is a prefix of `l` (character lists). -/
def prefixOfChars : List Char → List Char → Bool
  | [], _ => true
  | _ :: _, [] => false
  | a :: as, b :: bs => a == b && prefixOfChars as bs

/-- Python's `t in s` on strings: `t` occurs as a contiguous substring. -/
def hasSub (t : List Char) : List Char → Bool
  | [] => prefixOfChars t []
  | c :: rest => prefixOfChars t (c :: rest) || hasSub t rest

/-- The loop of `search_in_content` over the iterated reminders: collect
those whose (optionally lowercased) content contains the target.  `none`
records the exception raised on a reminder whose `content` is `None`
(`None.lower()` / `t in None`). -/
def searchLoop (target : String) (ci : Bool) :
    List Reminder → Option (List Reminder)
  | [] => some []
  | r :: rest =>
    match r.content with
    | none => none
    | some c =>
      let hay := if ci then lowerStr c else c
      match searchLoop target ci rest with
      | none => none
      | some ms => some (if hasSub target.data hay.data then r :: ms else ms)

/-- `search_in_content(content, case_insensitive)`: substring search over
all stored reminders, lowercasing both sides when case-insensitive. -/
def search_in_content (s : Store) (content : String) (ci : Bool) :
    Option (List Reminder) :=
  searchLoop (if ci then lowerStr content else content) ci (iterAll s)

/-! ### Date expression parsing -/

/-- Outcome of `parse_date`: a date, the raised `InvalidDateException`,
or an uncaught exception (`int()` raising `ValueError` in
`_parse_absolute_date`). -/
inductive DateResult
  | ok (d : Date)
  | invalid
  | crash
deriving DecidableEq, Repr

/-- Decimal digit value. -/
def digitVal (c : Char) : Option Nat :=
  if '0' ≤ c ∧ c ≤ '9' then some (c.toNat - '0'.toNat) else none

/-- `int()` on a nonempty digit string. -/
def parseNatChars (l : List Char) : Option Nat :=
  match l with
  | [] => none
  | _ =>
    l.foldl
      (fun acc c =>
        match acc, digitVal c with
        | some n, some d => some (n * 10 + d)
        | _, _ => none)
      (some 0)

/-- `int()` on an optionally `-`-signed digit string. -/
def parseIntChars : List Char → Option Int
  | '-' :: rest => (parseNatChars rest).map (fun n => -(n : Int))
  | l => (parseNatChars l).map (fun n => (n : Int))

/-- `str.split(sep)` on character lists. -/
def splitOnChar (sep : Char) : List Char → List (List Char)
  | [] => [[]]
  | c :: rest =>
    let r := splitOnChar sep rest
    if c = sep then [] :: r
    else
      match r with
      | [] => [[c]]
      | h :: t => (c :: h) :: t

/-- `str.split()` (no separator): split on spaces, discarding empty
pieces. -/
def splitWords (l : List Char) : List (List Char) :=
  (splitOnChar ' ' l).filter (fun w => !w.isEmpty)

/-- The inner `convert(day, month, year)` of `_parse_absolute_date`: try
`date(year, month, day)`; on `ValueError` swap month and day and retry;
if that also fails, raise `InvalidDateException`.  Arguments here are
`(year, month, day)`. -/
def convert (y m d : Int) : DateResult :=
  match mkdate? y m d with
  | some dt => .ok dt
  | none =>
    match mkdate? y d m with
    | some dt => .ok dt
    | none => .invalid

/-- `_parse_absolute_date(date, sep)`: one separator means `M<sep>D` with
the current year; two separators mean three components whose numeric
maximum is the year, the remaining two (in order) month then day;
anything else is `InvalidDateException`.  A component `int()` cannot
parse is an uncaught `ValueError` (`crash`). -/
def parse_absolute_date (today : Date) (l : List Char) (sep : Char) :
    DateResult :=
  if l.count sep = 1 then
    match splitOnChar sep l with
    | [ms, ds] =>
      match parseIntChars ms, parseIntChars ds with
      | some m, some d => convert (today.year : Int) m d
      | _, _ => .crash
    | _ => .crash
  else if l.count sep = 2 then
    match splitOnChar sep l with
    | [as, bs, cs] =>
      match parseIntChars as, parseIntChars bs, parseIntChars cs with
      | some a, some b, some c =>
        let yr := max a (max b c)
        match ([a, b, c].erase yr) with
        | [m, d] => convert yr m d
        | _ => .crash
      | _, _, _ => .crash
    | _ => .crash
  else .invalid

/-- `_parse_relative_date(date)`: `"<N> day|days|week|weeks"`; the
singular unit is normalized by appending `s`; the result is today plus
`N` times the unit.  Unpacking or `int()` failures are the caught
`ValueError`, i.e. `InvalidDateException`. -/
def parse_relative_date (today : Date) (l : List Char) : DateResult :=
  match splitWords l with
  | [num, time] =>
    let time2 :=
      if (time ++ ['s']) = "days".data ∨ (time ++ ['s']) = "weeks".data then
        time ++ ['s']
      else time
    if time2 = "days".data then
      match parseNatChars num with
      | some n => .ok (addDays today (n * 1))
      | none => .invalid
    else if time2 = "weeks".data then
      match parseNatChars num with
      | some n => .ok (addDays today (n * 7))
      | none => .invalid
    else .invalid
  | _ => .invalid

/-- `parse_date(date)`: the literals `today`/`tomorrow`; else absolute
form on the first of `/`, `.`, `-` the string contains (in that order);
else relative form when it contains a space; else
`InvalidDateException`. -/
def parse_date (today : Date) (s : String) : DateResult :=
  if s = "today" then .ok today
  else if s = "tomorrow" then .ok (addDays today 1)
  else if s.data.contains '/' then parse_absolute_date today s.data '/'
  else if s.data.contains '.' then parse_absolute_date today s.data '.'
  else if s.data.contains '-' then parse_absolute_date today s.data '-'
  else if s.data.contains ' ' then parse_relative_date today s.data
  else .invalid

/-! ### Helper lemmas -/

theorem fieldMatch_iff {α : Type} [DecidableEq α] (x y : Option α) :
    fieldMatch x y = true ↔ (x = none ∨ y = none ∨ x = y) := by
  cases x <;> cases y <;> simp [fieldMatch]

theorem fieldMatch_refl {α : Type} [DecidableEq α] (x : Option α) :
    fieldMatch x x = true := by
  cases x <;> simp [fieldMatch]

theorem fieldMatch_symm {α : Type} [DecidableEq α] (x y : Option α) :
    fieldMatch x y = fieldMatch y x := by
  cases x <;> cases y <;> simp [fieldMatch, decide_eq_decide, eq_comm]

theorem reminderEq_refl (a : Reminder) : reminderEq a a = true := by
  simp [reminderEq, fieldMatch_refl]

theorem reminderEq_symm (a b : Reminder) : reminderEq a b = reminderEq b a := by
  simp only [reminderEq]
  rw [fieldMatch_symm a.content, fieldMatch_symm a.category,
    fieldMatch_symm a.date_due]

theorem reminderEq_category {a b : Reminder} {x y : String}
    (h : reminderEq a b = true) (hx : a.category = some x)
    (hy : b.category = some y) : x = y := by
  simp only [reminderEq, Bool.and_eq_true] at h
  have := h.1.2
  rw [hx, hy, fieldMatch_iff] at this
  simpa using this

theorem iterAll_cons (p : String × List Reminder) (s : Store) :
    iterAll (p :: s) = p.2 ++ iterAll s := by
  simp [iterAll]

theorem mem_iterAll {r : Reminder} {s : Store} :
    r ∈ iterAll s ↔ ∃ p ∈ s, r ∈ p.2 := by
  simp only [iterAll, List.mem_flatten, List.mem_map]
  exact ⟨fun ⟨l, ⟨p, hp, hl⟩, hr⟩ => ⟨p, hp, hl ▸ hr⟩,
    fun ⟨p, hp, hr⟩ => ⟨p.2, ⟨p, hp, rfl⟩, hr⟩⟩

theorem reminder_exists_iff {s : Store} {r : Reminder} :
    reminder_exists s r = true ↔
      ∃ item ∈ iterAll s, reminderEq item r = true := by
  simp [reminder_exists]

theorem self_mem_storeSet (s : Store) (c : String) (l : List Reminder) :
    (c, l) ∈ storeSet s c l := by
  induction s with
  | nil => simp [storeSet]
  | cons p rest ih =>
    by_cases h : p.1 = c <;> simp [storeSet, h, ih]

theorem mem_storeSet {p : String × List Reminder} {s : Store} {c : String}
    {l : List Reminder} (h : p ∈ storeSet s c l) : p = (c, l) ∨ p ∈ s := by
  induction s with
  | nil => simpa [storeSet] using h
  | cons q rest ih =>
    by_cases hq : q.1 = c
    · simp only [storeSet, if_pos hq, List.mem_cons] at h
      rcases h with h | h
      · exact Or.inl h
      · exact Or.inr (List.mem_cons_of_mem _ h)
    · simp only [storeSet, if_neg hq, List.mem_cons] at h
      rcases h with h | h
      · exact Or.inr (by simp [h])
      · rcases ih h with h | h
        · exact Or.inl h
        · exact Or.inr (List.mem_cons_of_mem _ h)

theorem mem_storeDel {p : String × List Reminder} {s : Store} {c : String}
    (h : p ∈ storeDel s c) : p ∈ s := by
  induction s with
  | nil => simp [storeDel] at h
  | cons q rest ih =>
    by_cases hq : q.1 = c
    · simp only [storeDel, if_pos hq] at h
      exact List.mem_cons_of_mem _ h
    · simp only [storeDel, if_neg hq, List.mem_cons] at h
      rcases h with h | h
      · simp [h]
      · exact List.mem_cons_of_mem _ (ih h)

theorem not_mem_keys_storeDel {s : Store} {c : String}
    (h : (s.map Prod.fst).Nodup) : c ∉ (storeDel s c).map Prod.fst := by
  induction s with
  | nil => simp [storeDel]
  | cons q rest ih =>
    simp only [List.map_cons, List.nodup_cons] at h
    by_cases hq : q.1 = c
    · simpa [storeDel, hq] using fun hm => h.1 (hq ▸ hm)
    · simp only [storeDel, if_neg hq, List.map_cons, List.mem_cons]
      rintro (h1 | h1)
      · exact hq h1.symm
      · exact ih h.2 h1

theorem storeGet_eq_nil {s : Store} {c : String}
    (h : c ∉ s.map Prod.fst) : storeGet s c = [] := by
  induction s with
  | nil => simp [storeGet]
  | cons q rest ih =>
    simp only [List.map_cons, List.mem_cons] at h
    push_neg at h
    have hne : q.1 ≠ c := fun hq => h.1 hq.symm
    simp only [storeGet, if_neg hne]
    exact ih h.2

theorem storeGet_eq_of_mem {s : Store} {p : String × List Reminder}
    (hnd : (s.map Prod.fst).Nodup) (hp : p ∈ s) : storeGet s p.1 = p.2 := by
  induction s with
  | nil => simp at hp
  | cons q rest ih =>
    simp only [List.map_cons, List.nodup_cons] at hnd
    rcases List.mem_cons.mp hp with h | h
    · simp [storeGet, h]
    · by_cases hq : q.1 = p.1
      · exact absurd (hq ▸ List.mem_map_of_mem Prod.fst h) hnd.1
      · simp only [storeGet, if_neg hq]
        exact ih hnd.2 h

theorem mem_iterAll_storeSet {r : Reminder} {l : List Reminder} (s : Store)
    (c : String) (hr : r ∈ l) : r ∈ iterAll (storeSet s c l) :=
  mem_iterAll.mpr ⟨(c, l), self_mem_storeSet s c l, hr⟩

theorem removeFirstMatch_isSome {t : Reminder} {l : List Reminder}
    (h : ∃ x ∈ l, reminderEq x t = true) :
    ∃ l', removeFirstMatch t l = some l' := by
  induction l with
  | nil => simp at h
  | cons x rest ih =>
    by_cases hx : reminderEq x t = true
    · exact ⟨rest, by simp [removeFirstMatch, hx]⟩
    · rcases h with ⟨y, hy, hyt⟩
      rcases List.mem_cons.mp hy with h | h
      · exact absurd (h ▸ hyt) hx
      · rcases ih ⟨y, h, hyt⟩ with ⟨l', hl'⟩
        exact ⟨x :: l', by simp [removeFirstMatch, hx, hl']⟩

theorem noEmpty_storeSet {s : Store} {l : List Reminder} {c : String}
    (hs : ∀ p ∈ s, p.2 ≠ []) (hl : l ≠ []) :
    ∀ p ∈ storeSet s c l, p.2 ≠ [] := by
  intro p hp
  rcases mem_storeSet hp with h | h
  · simpa [h] using hl
  · exact hs p h

/-- A match for `t` stored anywhere in a well-keyed store lies in `t`'s
own category partition: each stored reminder's `category` names its key,
so a partial match on a `some`-category target pins the key down. -/
theorem match_in_own_partition {s : Store} {t : Reminder} {c : String}
    (hnd : (s.map Prod.fst).Nodup)
    (hcat : ∀ p ∈ s, ∀ r ∈ p.2, r.category = some p.1)
    (hc : t.category = some c)
    (hex : reminder_exists s t = true) :
    ∃ x ∈ storeGet s c, reminderEq x t = true := by
  rcases reminder_exists_iff.mp hex with ⟨item, hitem, heq⟩
  rcases mem_iterAll.mp hitem with ⟨p, hp, hmem⟩
  have hic : item.category = some p.1 := hcat p hp item hmem
  have : p.1 = c := reminderEq_category heq hic hc
  subst this
  rw [storeGet_eq_of_mem hnd hp]
  exact ⟨item, hmem, heq⟩

/-! ### The claims -/

/-- C1: `Reminder.__eq__` matches two reminders exactly when, for each of
`content`, `category` and `date_due`, either side is absent or the two
values are equal; the `serial` and creation-`date` fields never influence
the result. -/
theorem c1_partial_match_characterization (a b : Reminder) :
    (reminderEq a b = true ↔
      ((a.content = none ∨ b.content = none ∨ a.content = b.content) ∧
       (a.category = none ∨ b.category = none ∨ a.category = b.category) ∧
       (a.date_due = none ∨ b.date_due = none ∨ a.date_due = b.date_due))) ∧
    (∀ s₁ d₁ s₂ d₂,
      reminderEq { a with serial := s₁, date := d₁ }
        { b with serial := s₂, date := d₂ } = reminderEq a b) := by
  constructor
  · simp [reminderEq, fieldMatch_iff, and_assoc]
  · intro s₁ d₁ s₂ d₂
    rfl

/-- C1 witness: two concrete reminders differing in serial, creation date
and (one-sidedly absent) category still match. -/
theorem c1_witness :
    reminderEq ⟨1, ⟨2026, 1, 1⟩, some "x", none, none⟩
      ⟨2, ⟨2025, 5, 5⟩, some "x", some "general", none⟩ = true :=
  (c1_partial_match_characterization _ _).1.mpr
    ⟨Or.inr (Or.inr rfl), Or.inl rfl, Or.inl rfl⟩

/-- C2: the partial match is reflexive and symmetric, but not transitive:
with a shared content, a `none` category in the middle reminder bridges
two reminders whose set categories differ. -/
theorem c2_refl_symm_not_trans :
    (∀ a : Reminder, reminderEq a a = true) ∧
    (∀ a b : Reminder, reminderEq a b = reminderEq b a) ∧
    (∃ a b c : Reminder, reminderEq a b = true ∧ reminderEq b c = true ∧
      reminderEq a c = false) := by
  refine ⟨reminderEq_refl, reminderEq_symm,
    ⟨⟨1, ⟨2026, 1, 1⟩, some "x", some "A", none⟩,
     ⟨2, ⟨2026, 1, 1⟩, some "x", none, none⟩,
     ⟨3, ⟨2026, 1, 1⟩, some "x", some "B", none⟩, ?_, ?_, ?_⟩⟩ <;> decide

/-- C2 witness: reflexivity evaluated on a concrete reminder. -/
theorem c2_witness :
    reminderEq ⟨7, ⟨2026, 2, 3⟩, some "w", some "general", none⟩
      ⟨7, ⟨2026, 2, 3⟩, some "w", some "general", none⟩ = true :=
  c2_refl_symm_not_trans.1 _

/-- C5: `next_serial` returns the stored counter (0 when absent) plus
one and persists that same value; hence the serials of successive
constructions are positive, strictly increasing and pairwise distinct. -/
theorem c5_serials_increasing :
    (∀ stored : Option Nat,
      next_serial stored = (stored.getD 0 + 1, stored.getD 0 + 1)) ∧
    (∀ (stored : Option Nat) (n : Nat),
      (∀ x ∈ issueSerials stored n, 0 < x) ∧
      (issueSerials stored n).Pairwise (· < ·) ∧
      (issueSerials stored n).Nodup) := by
  have key : ∀ (n : Nat) (stored : Option Nat) (x : Nat),
      x ∈ issueSerials stored n → stored.getD 0 < x := by
    intro n
    induction n with
    | zero => intro stored x hx; simp [issueSerials] at hx
    | succ m ih =>
      intro stored x hx
      simp only [issueSerials, next_serial, List.mem_cons] at hx
      rcases hx with h | h
      · omega
      · have := ih _ _ h
        simp only [Option.getD_some] at this
        omega
  refine ⟨fun _ => rfl, fun stored n => ?_⟩
  have pw : ∀ (n : Nat) (stored : Option Nat),
      (issueSerials stored n).Pairwise (· < ·) := by
    intro n
    induction n with
    | zero => intro stored; simp [issueSerials]
    | succ m ih =>
      intro stored
      simp only [issueSerials, List.pairwise_cons]
      refine ⟨fun x hx => ?_, ih _⟩
      have := key m _ x hx
      simpa [next_serial] using this
  refine ⟨fun x hx => ?_, pw n stored, (pw n stored).imp ne_of_lt⟩
  have := key n stored x hx
  omega

/-- C5 witness: the serials issued from an absent counter are positive
and strictly increasing, evaluated for three constructions. -/
theorem c5_witness :
    (0 : Nat) < 1 ∧ (issueSerials none 3).Pairwise (· < ·) :=
  ⟨(c5_serials_increasing.2 none 3).1 1 (by decide),
   (c5_serials_increasing.2 none 3).2.1⟩

/-- C10: the constructor always yields a set category (any falsy
argument — absent or the empty string — becomes `"general"`) and a set
creation date (absent becomes today); consequently a constructed
reminder's category is never the skipped wildcard side in a partial
match against a category-bearing reminder. -/
theorem c10_constructor_defaults (today : Date) (serial : Nat)
    (content : Option String) (category : Option String)
    (date_due : Option Date) (date : Option Date) :
    (mkReminder today serial content category date_due date).category ≠
      none ∧
    ((category = none ∨ category = some "") →
      (mkReminder today serial content category date_due date).category =
        some "general") ∧
    (∀ c, category = some c → c ≠ "" →
      (mkReminder today serial content category date_due date).category =
        some c) ∧
    (date = none →
      (mkReminder today serial content category date_due date).date =
        today) ∧
    (∀ d, date = some d →
      (mkReminder today serial content category date_due date).date = d) ∧
    (∀ b : Reminder, b.category ≠ none →
      reminderEq (mkReminder today serial content category date_due date)
          b = true →
      (mkReminder today serial content category date_due date).category =
        b.category) := by
  refine ⟨by simp [mkReminder], ?_, ?_, ?_, ?_, ?_⟩
  · rintro (rfl | rfl) <;> simp [mkReminder]
  · rintro c rfl hc
    simp [mkReminder, hc]
  · rintro rfl
    rfl
  · rintro d rfl
    rfl
  · intro b hb heq
    rcases hbc : b.category with _ | y
    · exact absurd hbc hb
    · rcases hmc : (mkReminder today serial content category date_due
          date).category with _ | x
      · simp [mkReminder] at hmc
      · exact congrArg some (reminderEq_category heq hmc hbc)

/-- C10 witness: omitted category and creation date become `"general"`
and today. -/
theorem c10_witness :
    (mkReminder ⟨2026, 10, 12⟩ 1 (some "call r3") none none none).category =
      some "general" ∧
    (mkReminder ⟨2026, 10, 12⟩ 1 (some "call r3") none none none).date =
      ⟨2026, 10, 12⟩ :=
  ⟨(c10_constructor_defaults _ _ _ _ _ _).2.1 (Or.inl rfl),
   (c10_constructor_defaults _ _ _ _ _ _).2.2.2.1 rfl⟩

/-- C3: `add_reminder` raises `AlreadyExists` exactly when a stored
reminder partially matches (the store then untouched, as the exception
precedes the write); otherwise it appends the reminder at the end of its
category's partition, after which `reminder_exists` holds for it. -/
theorem c3_add_guard_and_append (s : Store) (r : Reminder) (c : String)
    (hc : r.category = some c) :
    (add_reminder s r = .error .alreadyExists ↔
      reminder_exists s r = true) ∧
    (reminder_exists s r = false →
      add_reminder s r = .ok (storeSet s c (storeGet s c ++ [r])) ∧
      reminder_exists (storeSet s c (storeGet s c ++ [r])) r = true) := by
  have happ : append_reminder s r =
      some (storeSet s c (storeGet s c ++ [r])) := by
    simp [append_reminder, hc]
  constructor
  · constructor
    · intro h
      by_contra hne
      simp only [Bool.not_eq_true] at hne
      rw [add_reminder, if_neg (by simp [hne]), happ] at h
      exact Except.noConfusion h
    · intro h
      simp [add_reminder, h]
  · intro h
    refine ⟨by simp [add_reminder, h, happ], ?_⟩
    exact reminder_exists_iff.mpr
      ⟨r, mem_iterAll_storeSet s c (by simp), reminderEq_refl r⟩

/-- C3 witness: adding a fresh reminder to the empty store succeeds and
it exists afterwards; re-adding it then fails with `AlreadyExists`. -/
theorem c3_witness :
    add_reminder []
        ⟨1, ⟨2026, 1, 1⟩, some "x", some "general", none⟩ =
      .ok [("general", [⟨1, ⟨2026, 1, 1⟩, some "x", some "general", none⟩])] ∧
    reminder_exists
        [("general", [⟨1, ⟨2026, 1, 1⟩, some "x", some "general", none⟩])]
        ⟨1, ⟨2026, 1, 1⟩, some "x", some "general", none⟩ = true :=
  (c3_add_guard_and_append []
      ⟨1, ⟨2026, 1, 1⟩, some "x", some "general", none⟩ "general" rfl).2
    (by decide)

/-- C4: on a store whose partitions carry their own category (as
`_append_reminder` maintains) and a constructed target (set category),
`delete_reminder` raises `NotFound` exactly when no stored reminder
partially matches, leaving the store as it was; otherwise it drops the
first matching entry of the target's own category partition and deletes
the partition key when this empties it. -/
theorem c4_delete_guard_and_remove (s : Store) (t : Reminder) (c : String)
    (hnd : (s.map Prod.fst).Nodup)
    (hcat : ∀ p ∈ s, ∀ r ∈ p.2, r.category = some p.1)
    (hc : t.category = some c) :
    (delete_reminder s t = .error .doesNotExist ↔
      reminder_exists s t = false) ∧
    (reminder_exists s t = true →
      ∃ l', removeFirstMatch t (storeGet s c) = some l' ∧
        delete_reminder s t =
          .ok (if l'.isEmpty then storeDel s c else storeSet s c l')) := by
  have pos : reminder_exists s t = true →
      ∃ l', removeFirstMatch t (storeGet s c) = some l' ∧
        delete_reminder s t =
          .ok (if l'.isEmpty then storeDel s c else storeSet s c l') := by
    intro hex
    rcases removeFirstMatch_isSome
        (match_in_own_partition hnd hcat hc hex) with ⟨l', hl'⟩
    refine ⟨l', hl', ?_⟩
    simp [delete_reminder, hex, remove_reminder, hc, hl']
  refine ⟨⟨fun h => ?_, fun h => by simp [delete_reminder, h]⟩, pos⟩
  by_contra hne
  simp only [Bool.not_eq_false] at hne
  rcases pos hne with ⟨l', _, hdel⟩
  rw [hdel] at h
  exact Except.noConfusion h

/-- C4 witness: deleting the sole reminder of a singleton store removes
it and its partition; deleting from the empty store fails. -/
theorem c4_witness :
    delete_reminder
        [("general", [⟨1, ⟨2026, 1, 1⟩, some "x", some "general", none⟩])]
        ⟨1, ⟨2026, 1, 1⟩, some "x", some "general", none⟩ = .ok [] ∧
    delete_reminder []
        ⟨1, ⟨2026, 1, 1⟩, some "x", some "general", none⟩ =
      .error .doesNotExist := by
  constructor
  · rcases (c4_delete_guard_and_remove
        [("general", [⟨1, ⟨2026, 1, 1⟩, some "x", some "general", none⟩])]
        ⟨1, ⟨2026, 1, 1⟩, some "x", some "general", none⟩ "general"
        (by decide) (by decide) rfl).2 (by decide) with ⟨l', hl', hdel⟩
    have hv : removeFirstMatch
        ⟨1, ⟨2026, 1, 1⟩, some "x", some "general", none⟩
        (storeGet
          [("general", [⟨1, ⟨2026, 1, 1⟩, some "x", some "general", none⟩])]
          "general") = some [] := by decide
    rw [hv] at hl'
    obtain rfl : l' = [] := by simpa using hl'.symm
    rw [hdel]
    rfl
  · exact (c4_delete_guard_and_remove []
        ⟨1, ⟨2026, 1, 1⟩, some "x", some "general", none⟩ "general"
        (by decide) (by decide) rfl).1.mpr (by decide)

/-- C6: neither engine operation leaves an empty category partition:
adding appends a nonempty list, and a delete that empties a partition
removes the key outright, after which a `get` of that category yields
the empty list rather than an error. -/
theorem c6_no_empty_partitions (s : Store)
    (hne : ∀ p ∈ s, p.2 ≠ []) (hnd : (s.map Prod.fst).Nodup) :
    (∀ r s', add_reminder s r = .ok s' → ∀ p ∈ s', p.2 ≠ []) ∧
    (∀ t s', delete_reminder s t = .ok s' →
      (∀ p ∈ s', p.2 ≠ []) ∧
      (∀ c, t.category = some c →
        removeFirstMatch t (storeGet s c) = some [] →
          c ∉ s'.map Prod.fst ∧ storeGet s' c = [])) := by
  constructor
  · intro r s' hadd p hp
    rcases hrc : r.category with _ | c
    · rw [add_reminder] at hadd
      split at hadd
      · exact Except.noConfusion hadd
      · simp [append_reminder, hrc] at hadd
    · rw [add_reminder] at hadd
      split at hadd
      · exact Except.noConfusion hadd
      · simp only [append_reminder, hrc, Except.ok.injEq] at hadd
        subst hadd
        exact noEmpty_storeSet hne (by simp) p hp
  · intro t s' hdel
    rw [delete_reminder] at hdel
    split at hdel
    · exact Except.noConfusion hdel
    · rcases htc : t.category with _ | c
      · simp [remove_reminder, htc] at hdel
      · simp only [remove_reminder, htc] at hdel
        rcases hrm : removeFirstMatch t (storeGet s c) with _ | l
        · rw [hrm] at hdel
          exact Except.noConfusion hdel
        · rw [hrm] at hdel
          simp only [Except.ok.injEq] at hdel
          subst hdel
          constructor
          · intro p hp
            by_cases hl : l.isEmpty
            · rw [if_pos hl] at hp
              exact hne p (mem_storeDel hp)
            · rw [if_neg hl] at hp
              exact noEmpty_storeSet hne
                (fun h => hl (by simp [h])) p hp
          · intro c' hc' hrm'
            obtain rfl : c = c' := by simpa using hc'
            rw [hrm] at hrm'
            obtain rfl : l = [] := by simpa using hrm'
            have hif : (if ([] : List Reminder).isEmpty = true then
                storeDel s c else storeSet s c []) = storeDel s c := rfl
            rw [hif]
            have hnk := not_mem_keys_storeDel (c := c) hnd
            exact ⟨hnk, storeGet_eq_nil hnk⟩

/-- C6 witness: deleting the last reminder of category `"general"`
removes the partition key, and a get of it afterwards is empty. -/
theorem c6_witness :
    "general" ∉
      (([] : Store).map Prod.fst) ∧
    storeGet ([] : Store) "general" = [] := by
  rcases (c6_no_empty_partitions
      [("general", [⟨1, ⟨2026, 1, 1⟩, some "x", some "general", none⟩])]
      (by decide) (by decide)).2
      ⟨1, ⟨2026, 1, 1⟩, some "x", some "general", none⟩ [] (by rfl)
    with ⟨_, h⟩
  exact h "general" rfl (by decide)

theorem searchLoop_eq_filter (target : String) (ci : Bool)
    (l : List Reminder) (h : ∀ r ∈ l, r.content ≠ none) :
    searchLoop target ci l =
      some (l.filter (fun r =>
        match r.content with
        | some c => hasSub target.data ((if ci then lowerStr c else c)).data
        | none => false)) := by
  induction l with
  | nil => rfl
  | cons r rest ih =>
    rcases hc : r.content with _ | c
    · exact absurd hc (h r (List.mem_cons_self r rest))
    · have hrest := ih (fun x hx => h x (List.mem_cons_of_mem r hx))
      simp only [searchLoop, hc, hrest, List.filter_cons]

/-- C9: when every stored reminder's content is set (as the construction
path guarantees), `search_in_content` never raises: it returns exactly
the stored reminders whose content contains the query substring, the
default (case-sensitive) call comparing verbatim and the
case-insensitive call comparing both sides lowercased. -/
theorem c9_search_in_content (s : Store) (q : String)
    (h : ∀ r ∈ iterAll s, r.content ≠ none) :
    search_in_content s q false =
      some ((iterAll s).filter (fun r =>
        match r.content with
        | some c => hasSub q.data c.data
        | none => false)) ∧
    search_in_content s q true =
      some ((iterAll s).filter (fun r =>
        match r.content with
        | some c => hasSub (lowerStr q).data (lowerStr c).data
        | none => false)) := by
  constructor
  · rw [search_in_content, searchLoop_eq_filter _ _ _ h]
    rfl
  · rw [search_in_content, searchLoop_eq_filter _ _ _ h]
    rfl

/-- C9 counterexample: `search_in_content` is not raise-free over every
store state: a stored reminder whose `content` is `None` (the
constructor accepts and keeps an absent content, and `add_reminder`
stores such a reminder whenever no partial match blocks it) makes the
loop evaluate `None.lower()` / `target in None`, raising
`AttributeError`/`TypeError` — the `none` outcome here. -/
theorem c9_counterexample :
    search_in_content
        [("general", [⟨1, ⟨2026, 1, 1⟩, none, some "general", none⟩])]
        "x" false = none := rfl

/-- C9 witness: a case-insensitive search finds differently-cased
content that the case-sensitive default misses. -/
theorem c9_witness :
    search_in_content
        [("general", [⟨1, ⟨2026, 1, 1⟩, some "Remind me", some "general",
          none⟩])] "remind" true =
      some [⟨1, ⟨2026, 1, 1⟩, some "Remind me", some "general", none⟩] ∧
    search_in_content
        [("general", [⟨1, ⟨2026, 1, 1⟩, some "Remind me", some "general",
          none⟩])] "remind" false = some [] := by
  have h := c9_search_in_content
    [("general", [⟨1, ⟨2026, 1, 1⟩, some "Remind me", some "general",
      none⟩])] "remind" (by decide)
  exact ⟨h.2.trans (by decide), h.1.trans (by decide)⟩

theorem daysInMonth_march (y : Nat) : daysInMonth y 3 = 31 := rfl

/-- C7: the sampled behaviours of `parse_date`: `tomorrow` is today plus
one day, `1 week` today plus seven, `3/8` March 8 of the current year,
`3/8/2013` March 8, 2013, and an input matching no grammar form raises
`InvalidDateException`. -/
theorem c7_parse_date_examples (today : Date) (h1 : 1 ≤ today.year)
    (h2 : today.year ≤ 9999) :
    parse_date today "tomorrow" = .ok (addDays today 1) ∧
    parse_date today "1 week" = .ok (addDays today 7) ∧
    parse_date today "3/8" = .ok ⟨today.year, 3, 8⟩ ∧
    parse_date today "3/8/2013" = .ok ⟨2013, 3, 8⟩ ∧
    parse_date today "not a date" = .invalid := by
  refine ⟨rfl, rfl, ?_, rfl, rfl⟩
  have hstep : parse_date today "3/8" = convert (today.year : Int) 3 8 := rfl
  have hmk : mkdate? (today.year : Int) 3 8 = some ⟨today.year, 3, 8⟩ := by
    rw [mkdate?, if_pos]
    · simp
    · refine ⟨by exact_mod_cast h1, by exact_mod_cast h2, by norm_num,
        by norm_num, by norm_num, ?_⟩
      rw [show Int.toNat 3 = 3 from rfl, daysInMonth_march]
      norm_num
  rw [hstep, convert, hmk]

/-- C7 witness: the five parses evaluated at the concrete date
2026-10-12. -/
theorem c7_witness :
    parse_date ⟨2026, 10, 12⟩ "3/8" = .ok ⟨2026, 3, 8⟩ ∧
    parse_date ⟨2026, 10, 12⟩ "not a date" = .invalid :=
  ⟨(c7_parse_date_examples ⟨2026, 10, 12⟩ (by decide) (by decide)).2.2.1,
   (c7_parse_date_examples ⟨2026, 10, 12⟩ (by decide)
     (by decide)).2.2.2.2⟩

theorem splitOnChar_length (sep : Char) (l : List Char) :
    (splitOnChar sep l).length = l.count sep + 1 := by
  induction l with
  | nil => rfl
  | cons c rest ih =>
    by_cases h : c = sep
    · simp only [splitOnChar, if_pos h, List.length_cons, ih,
        List.count_cons]
      simp [h]
    · rcases hr : splitOnChar sep rest with _ | ⟨hd, tl⟩
      · rw [hr] at ih
        simp at ih
      · rw [hr] at ih
        simp only [splitOnChar, if_neg h, hr, List.length_cons,
          List.count_cons] at ih ⊢
        simp [h, ← ih]

/-- C8: `parse_date` picks the absolute-form separator by testing `/`,
then `.`, then `-`; a two-component absolute form is converted with the
current year; a three-component form takes the numerically largest
component as the year and the remaining two, in order, as month and day;
and `convert` retries with month and day swapped when the primary
reading is not a valid calendar date, raising `InvalidDateException`
only when both readings fail. -/
theorem c8_absolute_date_rules (today : Date) :
    (∀ s : String, s ≠ "today" → s ≠ "tomorrow" →
      ((s.data.contains '/') = true →
        parse_date today s = parse_absolute_date today s.data '/') ∧
      ((s.data.contains '/') = false → (s.data.contains '.') = true →
        parse_date today s = parse_absolute_date today s.data '.') ∧
      ((s.data.contains '/') = false → (s.data.contains '.') = false →
        (s.data.contains '-') = true →
        parse_date today s = parse_absolute_date today s.data '-')) ∧
    (∀ (l : List Char) (sep : Char) (ms ds : List Char) (m d : Int),
      splitOnChar sep l = [ms, ds] →
      parseIntChars ms = some m → parseIntChars ds = some d →
      parse_absolute_date today l sep = convert (today.year : Int) m d) ∧
    (∀ (l : List Char) (sep : Char) (as bs cs : List Char) (a b c : Int),
      splitOnChar sep l = [as, bs, cs] →
      parseIntChars as = some a → parseIntChars bs = some b →
      parseIntChars cs = some c →
      ∀ m d, [a, b, c].erase (max a (max b c)) = [m, d] →
        parse_absolute_date today l sep = convert (max a (max b c)) m d) ∧
    (∀ y m d : Int,
      (∀ dt, mkdate? y m d = some dt → convert y m d = .ok dt) ∧
      (∀ dt, mkdate? y m d = none → mkdate? y d m = some dt →
        convert y m d = .ok dt) ∧
      (mkdate? y m d = none → mkdate? y d m = none →
        convert y m d = .invalid)) := by
  refine ⟨?_, ?_, ?_, ?_⟩
  · intro s hs1 hs2
    refine ⟨?_, ?_, ?_⟩
    · intro h
      have h' : '/' ∈ s.data := by simpa using h
      simp [parse_date, hs1, hs2, h']
    · intro h1 h2
      have h1' : '/' ∉ s.data := by simpa using h1
      have h2' : '.' ∈ s.data := by simpa using h2
      simp [parse_date, hs1, hs2, h1', h2']
    · intro h1 h2 h3
      have h1' : '/' ∉ s.data := by simpa using h1
      have h2' : '.' ∉ s.data := by simpa using h2
      have h3' : '-' ∈ s.data := by simpa using h3
      simp [parse_date, hs1, hs2, h1', h2', h3']
  · intro l sep ms ds m d hsplit hm hd
    have hcount : l.count sep = 1 := by
      have hlen := splitOnChar_length sep l
      rw [hsplit] at hlen
      simpa using hlen.symm
    simp [parse_absolute_date, hcount, hsplit, hm, hd]
  · intro l sep as bs cs a b c hsplit ha hb hc m d herase
    have hcount : l.count sep = 2 := by
      have hlen := splitOnChar_length sep l
      rw [hsplit] at hlen
      simpa using hlen.symm
    simp [parse_absolute_date, hcount, hsplit, ha, hb, hc, herase]
  · intro y m d
    refine ⟨?_, ?_, ?_⟩ <;> intros <;> simp [convert, *]

/-- C8 witness: `3/8` dispatches on `/` and converts with the current
year; `25/12` has an invalid primary month and succeeds after the
month/day swap. -/
theorem c8_witness :
    parse_absolute_date ⟨2026, 10, 12⟩ "3/8".data '/' =
      convert (2026 : Int) 3 8 ∧
    convert (2026 : Int) 25 12 = .ok ⟨2026, 12, 25⟩ := by
  constructor
  · exact (c8_absolute_date_rules ⟨2026, 10, 12⟩).2.1 "3/8".data '/'
      "3".data "8".data 3 8 (by decide) (by decide) (by decide)
  · exact ((c8_absolute_date_rules ⟨2026, 10, 12⟩).2.2.2 2026 25
      12).2.1 ⟨2026, 12, 25⟩ (by decide) (by decide)

end Todo
